import Mathlib

/-!
Verification development for the lyftr webhook ingestion and query service.

The Python sources under `app/` are shallowly embedded below:

* `storage.py` — `insert_message_sync`, `_build_filters`/`list_messages_sync`
  (SQLite `WHERE`/`ORDER BY`/`LIMIT`/`OFFSET` semantics made explicit),
  `stats_sync`, `schema_exists_sync`.  The SQLite table is a `List Row`; the
  `message_id PRIMARY KEY` constraint is the uniqueness check in
  `insert_message_sync`; SQLite's memcmp ordering on TEXT columns is `strLe`
  (lexicographic on code points, which agrees with byte order for UTF-8);
  SQLite `LIKE` is `likeMatch`; SQL `LOWER` (ASCII-only) is `lowerc`, while
  Python's Unicode-aware `str.lower` is `pyLowerChar`, exact on
  U+0000-U+00FF and the identity above it.
* `main.py` — the `/webhook` handler (`webhook`), the `/messages` handler
  (`get_messages`) and `/health/ready` (`health_ready`).  Library primitives
  that are not repository code (HMAC-SHA256, `json.loads`, the pydantic
  validator, the wall clock producing `created_at`) are passed in as explicit
  function arguments; HTTP responses are the inductive `Resp` whose
  constructors stand for the literal JSON bodies produced by the handler,
  plus the framework's 500 answer for the `TypeError` that
  `hmac.compare_digest` raises on non-ASCII `str` input.
* `metrics.py` — `Histogram.observe`, `Metrics.observe_latency` and the
  histogram section of `render_prometheus`, with latency values as rationals.
* `config.py` — `get_settings`'s handling of `WEBHOOK_SECRET` (`envSecret`).
-/

/-! ### Characters and strings -/

/-- The ASCII case-mapping table: each uppercase letter paired with its
lowercase form. -/
def lowerPairs : List (Char × Char) :=
  [('A','a'), ('B','b'), ('C','c'), ('D','d'), ('E','e'), ('F','f'), ('G','g'),
   ('H','h'), ('I','i'), ('J','j'), ('K','k'), ('L','l'), ('M','m'), ('N','n'),
   ('O','o'), ('P','p'), ('Q','q'), ('R','r'), ('S','s'), ('T','t'), ('U','u'),
   ('V','v'), ('W','w'), ('X','x'), ('Y','y'), ('Z','z')]

/-- ASCII lowercasing of one character: SQLite `LOWER`, which folds only
ASCII, and the case-fold of SQLite's `LIKE` comparison. -/
def lowerc (c : Char) : Char :=
  match lowerPairs.find? (fun p => p.1 == c) with
  | some p => p.2
  | none => c

/-- The Latin-1 uppercase letters (U+00C0-U+00DE except the multiplication
sign) paired with their lowercase forms: the non-ASCII part of Python
`str.lower` on the latin-1 range. -/
def latin1LowerPairs : List (Char × Char) :=
  [('À','à'), ('Á','á'), ('Â','â'), ('Ã','ã'), ('Ä','ä'), ('Å','å'), ('Æ','æ'),
   ('Ç','ç'), ('È','è'), ('É','é'), ('Ê','ê'), ('Ë','ë'), ('Ì','ì'), ('Í','í'),
   ('Î','î'), ('Ï','ï'), ('Ð','ð'), ('Ñ','ñ'), ('Ò','ò'), ('Ó','ó'), ('Ô','ô'),
   ('Õ','õ'), ('Ö','ö'), ('Ø','ø'), ('Ù','ù'), ('Ú','ú'), ('Û','û'), ('Ü','ü'),
   ('Ý','ý'), ('Þ','þ')]

/-- Case table for Python `str.lower`: ASCII plus the Latin-1 letters. -/
def pyLowerPairs : List (Char × Char) :=
  lowerPairs ++ latin1LowerPairs

/-- Python `str.lower`, character-wise.  The table is exact on all of
U+0000-U+00FF — in particular on every latin-1-decoded header value — and
the identity above that range (no code point above U+00FF appears in any
theorem below). -/
def pyLowerChar (c : Char) : Char :=
  match pyLowerPairs.find? (fun p => p.1 == c) with
  | some p => p.2
  | none => c

/-- Python `str.lower` on a whole string. -/
def pyLowerStr (s : String) : String :=
  String.mk (s.toList.map pyLowerChar)

/-- Is every character ASCII?  `hmac.compare_digest` accepts `str` arguments
only when both are ASCII and raises `TypeError` otherwise. -/
def isAsciiStr (s : String) : Bool :=
  s.toList.all (fun c => c.toNat < 128)

/-- Python `str.isspace()` — the exact character set `str.strip()` removes:
tab through carriage return, the separators U+001C-U+001F, space, NEL
U+0085, NBSP U+00A0, U+1680, U+2000-U+200A, U+2028, U+2029, U+202F, U+205F
and U+3000. -/
def pyIsSpace (c : Char) : Bool :=
  (9 ≤ c.toNat && c.toNat ≤ 13) || (28 ≤ c.toNat && c.toNat ≤ 32) ||
  c.toNat == 133 || c.toNat == 160 || c.toNat == 5760 ||
  (8192 ≤ c.toNat && c.toNat ≤ 8202) || c.toNat == 8232 || c.toNat == 8233 ||
  c.toNat == 8239 || c.toNat == 8287 || c.toNat == 12288

/-- Python `str.strip()` on a character list: drop whitespace from both ends. -/
def stripList (l : List Char) : List Char :=
  ((l.dropWhile pyIsSpace).reverse.dropWhile pyIsSpace).reverse

/-- Python `str.strip()`. -/
def pyStrip (s : String) : String :=
  String.mk (stripList s.toList)

/-- Lexicographic order on code-point lists; models SQLite's memcmp ordering
of TEXT values (UTF-8 byte order coincides with code-point order). -/
def listLe : List Char → List Char → Bool
  | [], _ => true
  | _ :: _, [] => false
  | a :: as, b :: bs =>
    if a.toNat < b.toNat then true
    else if b.toNat < a.toNat then false
    else listLe as bs

/-- SQLite TEXT comparison `a <= b`. -/
def strLe (a b : String) : Bool :=
  listLe a.toList b.toList

theorem lowerc_vals_fixed : ∀ p ∈ lowerPairs, lowerPairs.find? (fun q => q.1 == p.2) = none := by
  decide

theorem lowerc_idem (c : Char) : lowerc (lowerc c) = lowerc c := by
  unfold lowerc
  cases hf : lowerPairs.find? (fun p => p.1 == c) with
  | none => simp [hf]
  | some pr =>
    have hmem : pr ∈ lowerPairs := List.mem_of_find?_eq_some hf
    simp [lowerc_vals_fixed pr hmem]

theorem lowerc_eq_of_fixed (c d : Char) (hd : lowerPairs.find? (fun q => q.1 == d) = none)
    (hd2 : ∀ p ∈ lowerPairs, p.2 ≠ d) : lowerc c = d ↔ c = d := by
  constructor
  · intro h
    unfold lowerc at h
    cases hf : lowerPairs.find? (fun p => p.1 == c) with
    | none => simpa [hf] using h
    | some pr =>
      rw [hf] at h
      exact absurd h (hd2 pr (List.mem_of_find?_eq_some hf))
  · intro h; subst h; unfold lowerc; rw [hd]

theorem lowerc_pct (c : Char) : lowerc c = '%' ↔ c = '%' :=
  lowerc_eq_of_fixed c '%' (by decide) (by decide)

theorem lowerc_underscore (c : Char) : lowerc c = '_' ↔ c = '_' :=
  lowerc_eq_of_fixed c '_' (by decide) (by decide)

theorem latin1_keys_high : ∀ p ∈ latin1LowerPairs, 191 < p.1.toNat := by decide

/-- On ASCII characters, Python `str.lower` and SQLite `LOWER` agree. -/
theorem pyLowerChar_ascii (c : Char) (h : c.toNat < 128) : pyLowerChar c = lowerc c := by
  unfold pyLowerChar lowerc pyLowerPairs
  rw [List.find?_append]
  cases hf : lowerPairs.find? (fun p => p.1 == c) with
  | some pr => rfl
  | none =>
    have h2 : latin1LowerPairs.find? (fun p => p.1 == c) = none := by
      rw [List.find?_eq_none]
      intro x hx
      simp only [beq_iff_eq]
      intro hc
      subst hc
      have := latin1_keys_high x hx
      omega
    rw [h2]
    rfl

theorem listLe_refl (l : List Char) : listLe l l = true := by
  induction l with
  | nil => rfl
  | cons a as ih => simp [listLe, ih]

theorem listLe_total (a b : List Char) : listLe a b = true ∨ listLe b a = true := by
  induction a generalizing b with
  | nil => left; rfl
  | cons x xs ih =>
    cases b with
    | nil => right; rfl
    | cons y ys =>
      rcases Nat.lt_trichotomy x.toNat y.toNat with h | h | h
      · left; simp [listLe, h]
      · rcases ih ys with h2 | h2
        · left; simp [listLe, h, h2]
        · right; simp [listLe, h.symm, h2]
      · right; simp [listLe, h]

theorem listLe_trans (a b c : List Char) (hab : listLe a b = true)
    (hbc : listLe b c = true) : listLe a c = true := by
  induction a generalizing b c with
  | nil => rfl
  | cons x xs ih =>
    cases b with
    | nil => simp [listLe] at hab
    | cons y ys =>
      cases c with
      | nil => simp [listLe] at hbc
      | cons z zs =>
        simp only [listLe] at hab hbc ⊢
        rcases Nat.lt_trichotomy x.toNat y.toNat with h1 | h1 | h1 <;>
          rcases Nat.lt_trichotomy y.toNat z.toNat with h2 | h2 | h2
        · simp [show x.toNat < z.toNat by omega]
        · simp [show x.toNat < z.toNat by omega]
        · simp [show ¬ y.toNat < z.toNat by omega, h2] at hbc
        · simp [show x.toNat < z.toNat by omega]
        · simp only [show ¬ x.toNat < y.toNat by omega, if_false,
            show ¬ y.toNat < x.toNat by omega] at hab
          simp only [show ¬ y.toNat < z.toNat by omega, if_false,
            show ¬ z.toNat < y.toNat by omega] at hbc
          simp only [show ¬ x.toNat < z.toNat by omega, if_false,
            show ¬ z.toNat < x.toNat by omega]
          exact ih ys zs hab hbc
        · simp [show ¬ y.toNat < z.toNat by omega, h2] at hbc
        · simp [show ¬ x.toNat < y.toNat by omega, h1] at hab
        · simp [show ¬ x.toNat < y.toNat by omega, h1] at hab
        · simp [show ¬ x.toNat < y.toNat by omega, h1] at hab

theorem strLe_refl (a : String) : strLe a a = true := listLe_refl _

theorem strLe_total (a b : String) : strLe a b = true ∨ strLe b a = true :=
  listLe_total _ _

theorem strLe_trans (a b c : String) (hab : strLe a b = true) (hbc : strLe b c = true) :
    strLe a c = true := listLe_trans _ _ _ hab hbc

/-! ### SQLite `LIKE` pattern matching

`likeMatch chEq pat s` is SQLite's `LIKE`: `%` matches any span, `_` matches
one character, any other pattern character matches via the character
comparison `chEq` (SQLite folds ASCII case; here the operands are already
lowercased by the query, so `chEq` is instantiated with case-insensitive
equality `charLikeEq`). -/

/-- Character comparison used by `LIKE`: equality up to ASCII case. -/
def charLikeEq (a b : Char) : Bool :=
  lowerc a == lowerc b

/-- SQLite `LIKE`: structurally recursive on the pattern; a `%` tries every
suffix of the subject. -/
def likeMatch (chEq : Char → Char → Bool) : List Char → List Char → Bool
  | [], s => s.isEmpty
  | p :: ps, s =>
    if p = '%' then s.tails.any (fun t => likeMatch chEq ps t)
    else
      match s with
      | [] => false
      | c :: s2 => (p == '_' || chEq p c) && likeMatch chEq ps s2

/-- Does `p` match a prefix of `s`, comparing characters with `eqc`? -/
def hasPrefixBy (eqc : Char → Char → Bool) : List Char → List Char → Bool
  | [], _ => true
  | _ :: _, [] => false
  | a :: as, b :: bs => eqc a b && hasPrefixBy eqc as bs

/-- Does `p` occur as a contiguous run inside `s`, comparing characters with
`eqc`?  This is plain substring containment. -/
def containsSubBy (eqc : Char → Char → Bool) (p : List Char) : List Char → Bool
  | [] => p.isEmpty
  | c :: s => hasPrefixBy eqc p (c :: s) || containsSubBy eqc p s

/-- A pattern fragment with no `LIKE` metacharacters. -/
def wildcardFree (p : List Char) : Bool :=
  p.all (fun c => !(c == '%') && !(c == '_'))

theorem likeMatch_nil (chEq : Char → Char → Bool) (s : List Char) :
    likeMatch chEq [] s = s.isEmpty := rfl

theorem likeMatch_pct (chEq : Char → Char → Bool) (ps s : List Char) :
    likeMatch chEq ('%' :: ps) s = s.tails.any (fun t => likeMatch chEq ps t) := by
  simp [likeMatch]

theorem likeMatch_lit_nil (chEq : Char → Char → Bool) (p : Char) (ps : List Char)
    (h : p ≠ '%') : likeMatch chEq (p :: ps) [] = false := by
  simp [likeMatch, h]

theorem likeMatch_lit_cons (chEq : Char → Char → Bool) (p : Char) (ps : List Char)
    (c : Char) (s : List Char) (h : p ≠ '%') :
    likeMatch chEq (p :: ps) (c :: s) = ((p == '_' || chEq p c) && likeMatch chEq ps s) := by
  simp [likeMatch, h]

theorem tails_any_isEmpty (s : List Char) : s.tails.any (fun t => t.isEmpty) = true := by
  induction s with
  | nil => rfl
  | cons c s ih => simp [List.tails_cons, List.any_cons, ih]

theorem wildcardFree_cons (a : Char) (p : List Char) (hp : wildcardFree (a :: p) = true) :
    ¬(a = '%') ∧ ¬(a = '_') ∧ wildcardFree p = true := by
  have h1 := List.all_eq_true.mp hp a (by simp)
  refine ⟨?_, ?_, ?_⟩
  · intro hc; subst hc; simp at h1
  · intro hc; subst hc; simp at h1
  · exact List.all_eq_true.mpr fun x hx => List.all_eq_true.mp hp x (by simp [hx])

theorem likeMatch_trailing_pct (chEq : Char → Char → Bool) (p s : List Char)
    (hp : wildcardFree p = true) :
    likeMatch chEq (p ++ ['%']) s = hasPrefixBy chEq p s := by
  induction p generalizing s with
  | nil =>
    simp only [List.nil_append, likeMatch_pct, likeMatch_nil, hasPrefixBy]
    exact tails_any_isEmpty s
  | cons a p ih =>
    obtain ⟨ha1, ha2, hp2⟩ := wildcardFree_cons a p hp
    cases s with
    | nil =>
      rw [List.cons_append, likeMatch_lit_nil chEq a (p ++ ['%']) ha1]
      rfl
    | cons c s2 =>
      rw [List.cons_append, likeMatch_lit_cons chEq a (p ++ ['%']) c s2 ha1, ih s2 hp2,
        show (a == '_') = false by simp [ha2], Bool.false_or]
      rfl

theorem likeMatch_wrapped (chEq : Char → Char → Bool) (p s : List Char)
    (hp : wildcardFree p = true) :
    likeMatch chEq ('%' :: (p ++ ['%'])) s = containsSubBy chEq p s := by
  induction s with
  | nil =>
    rw [likeMatch_pct, show ([] : List Char).tails = [[]] from rfl, List.any_cons,
      List.any_nil, Bool.or_false, likeMatch_trailing_pct chEq p [] hp]
    cases p <;> rfl
  | cons c s ih =>
    rw [likeMatch_pct, List.tails_cons, List.any_cons,
      likeMatch_trailing_pct chEq p (c :: s) hp, ← likeMatch_pct, ih]
    rfl

theorem hasPrefixBy_map (eqc : Char → Char → Bool) (f : Char → Char) (p s : List Char) :
    hasPrefixBy eqc (p.map f) (s.map f) = hasPrefixBy (fun a b => eqc (f a) (f b)) p s := by
  induction p generalizing s with
  | nil => rfl
  | cons a as ih =>
    cases s with
    | nil => rfl
    | cons b bs => simp [List.map_cons, hasPrefixBy, ih]

theorem containsSubBy_map (eqc : Char → Char → Bool) (f : Char → Char) (p s : List Char) :
    containsSubBy eqc (p.map f) (s.map f) = containsSubBy (fun a b => eqc (f a) (f b)) p s := by
  induction s with
  | nil =>
    cases p <;> rfl
  | cons c s ih =>
    have e1 : containsSubBy eqc (p.map f) ((c :: s).map f)
        = (hasPrefixBy eqc (p.map f) ((c :: s).map f) || containsSubBy eqc (p.map f) (s.map f)) := rfl
    have e2 : containsSubBy (fun a b => eqc (f a) (f b)) p (c :: s)
        = (hasPrefixBy (fun a b => eqc (f a) (f b)) p (c :: s)
            || containsSubBy (fun a b => eqc (f a) (f b)) p s) := rfl
    rw [e1, e2, hasPrefixBy_map, ih]

theorem charLikeEq_lowerc (a b : Char) : charLikeEq (lowerc a) (lowerc b) = charLikeEq a b := by
  simp [charLikeEq, lowerc_idem]

/-! ### Data model (`storage.py`) -/

/-- One row of the `messages` table (schema in `SCHEMA_SQL`); `text` is the
only nullable column.  `created_at` is server-assigned at insert time. -/
structure Row where
  message_id : String
  from_msisdn : String
  to_msisdn : String
  ts : String
  text : Option String
  created_at : String
deriving DecidableEq

/-- The `messages` table contents. -/
abbrev Store := List Row

/-- Result of `Storage.insert_message_sync`. -/
structure InsertResult where
  dup : Bool
deriving DecidableEq

/-- Result of `Storage.list_messages_sync`. -/
structure MessagesPage where
  rows : List Row
  total : Nat
deriving DecidableEq

/-- `Storage.insert_message_sync`: one atomic `INSERT`; the
`message_id TEXT PRIMARY KEY` constraint makes the insert raise
`IntegrityError` — reported as `dup := true` — exactly when a row with the
same `message_id` is already present.  The wall clock `utc_now_iso()` is
passed in as `created_at`. -/
def insert_message_sync (st : Store) (message_id from_msisdn to_msisdn ts : String)
    (text : Option String) (created_at : String) : Store × InsertResult :=
  if st.any (fun r => r.message_id == message_id) then
    (st, ⟨true⟩)
  else
    (st ++ [⟨message_id, from_msisdn, to_msisdn, ts, text, created_at⟩], ⟨false⟩)

/-- The `LOWER(COALESCE(text,'')) LIKE ?` condition with argument
`%{q.lower()}%` from `Storage._build_filters`: Python's Unicode-aware
`str.lower` (`pyLowerChar`) lowercases `q`, SQL `LOWER` (`lowerc`,
ASCII-only) lowercases the column, and the interpolated value is a `LIKE`
pattern (no escaping), so `%`/`_` inside `q` act as wildcards.  The two
lowercasings differ off ASCII, e.g. at `É`. -/
def codeTextMatches (q : String) (text : Option String) : Bool :=
  likeMatch charLikeEq ('%' :: ((q.toList.map pyLowerChar) ++ ['%']))
    ((text.getD "").toList.map lowerc)

/-- The `WHERE` clause built by `Storage._build_filters`, as a row predicate:
`from_filter` and `since` are tested for Python truthiness (`if from_filter:`),
so `None` and `""` both add no condition; `q` is tested with `is not None`,
so `""` does add a (vacuous) `LIKE` condition. -/
def rowMatches (from_filter since q : Option String) (r : Row) : Bool :=
  (match from_filter with
   | none => true
   | some v => if v = "" then true else r.from_msisdn == v) &&
  ((match since with
   | none => true
   | some v => if v = "" then true else strLe v r.ts) &&
  (match q with
   | none => true
   | some v => codeTextMatches v r.text))

/-- The full filtered set (`SELECT ... WHERE ...` before ordering/paging). -/
def filteredRows (f s q : Option String) (st : Store) : Store :=
  st.filter (rowMatches f s q)

/-! ### Insertion sort, used to give `ORDER BY` a deterministic meaning -/

/-- Insert `x` into `l` before the first element it is `le`-below. -/
def insertLe {α : Type} (le : α → α → Bool) (x : α) : List α → List α
  | [] => [x]
  | y :: ys => if le x y then x :: y :: ys else y :: insertLe le x ys

/-- Insertion sort by the boolean relation `le`. -/
def sortLe {α : Type} (le : α → α → Bool) (l : List α) : List α :=
  l.foldr (insertLe le) []

theorem insertLe_perm {α : Type} (le : α → α → Bool) (x : α) (l : List α) :
    (insertLe le x l).Perm (x :: l) := by
  induction l with
  | nil => exact List.Perm.refl _
  | cons y ys ih =>
    simp only [insertLe]
    by_cases h : le x y = true
    · rw [if_pos h]
    · rw [if_neg h]
      exact (ih.cons y).trans (List.Perm.swap x y ys)

theorem sortLe_perm {α : Type} (le : α → α → Bool) (l : List α) :
    (sortLe le l).Perm l := by
  induction l with
  | nil => exact List.Perm.refl _
  | cons a l ih =>
    exact (insertLe_perm le a (sortLe le l)).trans (ih.cons a)

theorem mem_insertLe {α : Type} (le : α → α → Bool) (x : α) (l : List α) (y : α)
    (h : y ∈ insertLe le x l) : y = x ∨ y ∈ l := by
  have := (insertLe_perm le x l).mem_iff.mp h
  simpa using this

theorem pairwise_insertLe {α : Type} (le : α → α → Bool)
    (htot : ∀ a b, le a b = true ∨ le b a = true)
    (htrans : ∀ a b c, le a b = true → le b c = true → le a c = true)
    (x : α) (l : List α) (hl : l.Pairwise (fun a b => le a b = true)) :
    (insertLe le x l).Pairwise (fun a b => le a b = true) := by
  induction l with
  | nil => simp [insertLe]
  | cons y ys ih =>
    rw [List.pairwise_cons] at hl
    simp only [insertLe]
    by_cases h : le x y = true
    · rw [if_pos h]
      refine List.pairwise_cons.mpr ⟨?_, List.pairwise_cons.mpr hl⟩
      intro z hz
      rcases List.mem_cons.mp hz with rfl | hz2
      · exact h
      · exact htrans x y z h (hl.1 z hz2)
    · rw [if_neg h]
      refine List.pairwise_cons.mpr ⟨?_, ih hl.2⟩
      intro z hz
      rcases mem_insertLe le x ys z hz with rfl | hz2
      · rcases htot z y with h2 | h2
        · exact absurd h2 h
        · exact h2
      · exact hl.1 z hz2

theorem sortLe_pairwise {α : Type} (le : α → α → Bool)
    (htot : ∀ a b, le a b = true ∨ le b a = true)
    (htrans : ∀ a b c, le a b = true → le b c = true → le a c = true)
    (l : List α) : (sortLe le l).Pairwise (fun a b => le a b = true) := by
  induction l with
  | nil => simp [sortLe]
  | cons a l ih => exact pairwise_insertLe le htot htrans a (sortLe le l) ih

/-! ### `ORDER BY ts ASC, message_id ASC` and paging -/

/-- The `ORDER BY ts ASC, message_id ASC` comparison of
`Storage.list_messages_sync`. -/
def rowLe (a b : Row) : Bool :=
  if a.ts = b.ts then strLe a.message_id b.message_id else strLe a.ts b.ts

theorem rowLe_total (a b : Row) : rowLe a b = true ∨ rowLe b a = true := by
  unfold rowLe
  by_cases h : a.ts = b.ts
  · rw [if_pos h, if_pos h.symm]
    exact strLe_total _ _
  · rw [if_neg h, if_neg (fun hc => h hc.symm)]
    exact strLe_total _ _

theorem listLe_antisymm (a b : List Char) (h1 : listLe a b = true)
    (h2 : listLe b a = true) : a = b := by
  induction a generalizing b with
  | nil =>
    cases b with
    | nil => rfl
    | cons y ys => simp [listLe] at h2
  | cons x xs ih =>
    cases b with
    | nil => simp [listLe] at h1
    | cons y ys =>
      simp only [listLe] at h1 h2
      by_cases hxy : x.toNat < y.toNat
      · simp [show ¬ y.toNat < x.toNat by omega, hxy] at h2
      · by_cases hyx : y.toNat < x.toNat
        · simp [hyx, hxy] at h1
        · have hn : x.toNat = y.toNat := by omega
          have hx : x = y := Char.ext (UInt32.ext hn)
          rw [if_neg hxy, if_neg hyx] at h1
          rw [if_neg hyx, if_neg hxy] at h2
          rw [hx, ih ys h1 h2]

theorem strLe_antisymm (a b : String) (h1 : strLe a b = true) (h2 : strLe b a = true) :
    a = b :=
  String.toList_inj.mp (listLe_antisymm _ _ h1 h2)

theorem rowLe_trans (a b c : Row) (hab : rowLe a b = true) (hbc : rowLe b c = true) :
    rowLe a c = true := by
  unfold rowLe at hab hbc ⊢
  by_cases h1 : a.ts = b.ts
  · by_cases h2 : b.ts = c.ts
    · rw [if_pos h1] at hab
      rw [if_pos h2] at hbc
      rw [if_pos (h1.trans h2)]
      exact strLe_trans _ _ _ hab hbc
    · rw [if_neg h2] at hbc
      rw [if_neg (h1 ▸ h2), h1]
      exact hbc
  · by_cases h2 : b.ts = c.ts
    · rw [if_neg h1] at hab
      rw [if_neg (h2 ▸ h1), ← h2]
      exact hab
    · rw [if_neg h1] at hab
      rw [if_neg h2] at hbc
      by_cases h3 : a.ts = c.ts
      · have hba : strLe b.ts a.ts = true := by rw [h3]; exact hbc
        exact absurd (strLe_antisymm _ _ hab hba) h1
      · rw [if_neg h3]
        exact strLe_trans _ _ _ hab hbc

/-- Sort rows the way the query's `ORDER BY` does. -/
def sortRows (l : List Row) : List Row :=
  sortLe rowLe l

/-- `Storage.list_messages_sync`: one `COUNT(*)` with the filters for
`total`, then the filtered rows ordered by `(ts, message_id)` and sliced by
`LIMIT ?/OFFSET ?`. -/
def list_messages_sync (limit offset : Nat) (f s q : Option String) (st : Store) :
    MessagesPage :=
  { rows := ((sortRows (filteredRows f s q st)).drop offset).take limit
    total := (filteredRows f s q st).length }

/-- Response shape of `GET /messages` (`MessagesListOut`). -/
structure MessagesListOut where
  data : List Row
  total : Nat
  limit : Nat
  offset : Nat
deriving DecidableEq

/-- The `get_messages` handler: delegates to the store and shapes the page. -/
def get_messages (limit offset : Nat) (f s q : Option String) (st : Store) :
    MessagesListOut :=
  let page := list_messages_sync limit offset f s q st
  { data := page.rows, total := page.total, limit := limit, offset := offset }

/-! ### `Storage.stats_sync` -/

/-- Response shape of `GET /stats` as produced by `stats_sync`. -/
structure StatsOut where
  total_messages : Nat
  senders_count : Nat
  messages_per_sender : List (String × Nat)
  first_message_ts : Option String
  last_message_ts : Option String
deriving DecidableEq

/-- The `from_msisdn` column of the table. -/
def sendersOf (st : Store) : List String :=
  st.map (fun r => r.from_msisdn)

/-- SQL `MIN(ts)` over the TEXT column (memcmp order); `NULL` when the table
is empty. -/
def minTs (st : Store) : Option String :=
  match st.map (fun r => r.ts) with
  | [] => none
  | t :: ts => some (ts.foldl (fun m u => if strLe m u then m else u) t)

/-- SQL `MAX(ts)`; `NULL` when the table is empty. -/
def maxTs (st : Store) : Option String :=
  match st.map (fun r => r.ts) with
  | [] => none
  | t :: ts => some (ts.foldl (fun m u => if strLe m u then u else m) t)

/-- The `ORDER BY c DESC` comparison for the per-sender counts. -/
def countGe (a b : String × Nat) : Bool :=
  decide (b.2 ≤ a.2)

/-- `Storage.stats_sync`: `COUNT(*)`, `COUNT(DISTINCT from_msisdn)`, the
`GROUP BY from_msisdn ORDER BY c DESC LIMIT 10` top-sender list (one group
per distinct sender, carrying its row count), and `MIN(ts)`/`MAX(ts)`. -/
def stats_sync (st : Store) : StatsOut :=
  { total_messages := st.length
    senders_count := (sendersOf st).dedup.length
    messages_per_sender :=
      (sortLe countGe ((sendersOf st).dedup.map
        (fun s => (s, (sendersOf st).count s)))).take 10
    first_message_ts := minTs st
    last_message_ts := maxTs st }

/-! ### Metrics (`metrics.py`), latency values as rationals -/

/-- `metrics.Histogram`: parallel lists of bucket upper bounds and their
cumulative counts (the Python dict keyed by upper bound), plus running sum
and total count. -/
structure Histogram where
  buckets : List ℚ
  counts : List Nat
  sum : ℚ
  count : Nat
deriving DecidableEq

/-- `Histogram.observe`: bump `count` and `sum`, and increment every bucket
whose upper bound is `≥ value` (cumulative semantics). -/
def Histogram.observe (h : Histogram) (value : ℚ) : Histogram :=
  { h with
    count := h.count + 1
    sum := h.sum + value
    counts := List.zipWith (fun ub c => if value ≤ ub then c + 1 else c) h.buckets h.counts }

/-- `Histogram.with_buckets`: sorted, de-duplicated upper bounds with all
counts zero. -/
def Histogram.withBuckets (bs : List ℚ) : Histogram :=
  let b := sortLe (fun a c : ℚ => decide (a ≤ c)) bs.dedup
  { buckets := b, counts := List.replicate b.length 0, sum := 0, count := 0 }

/-- The fixed latency bucket bounds from `Metrics.__init__` (seconds). -/
def defaultLatencyBuckets : List ℚ :=
  [5/1000, 1/100, 25/1000, 1/20, 1/10, 1/4, 1/2, 1, 5/2, 5]

/-- The `request_latency` histogram as initialised by `Metrics.__init__`. -/
def requestLatencyInit : Histogram :=
  Histogram.withBuckets defaultLatencyBuckets

/-- `Metrics.observe_latency`: clamp negatives to zero, then observe. -/
def observeLatency (h : Histogram) (seconds : ℚ) : Histogram :=
  h.observe (max 0 seconds)

/-- A finite sequence of `observe_latency` calls. -/
def observeAll (h : Histogram) (vs : List ℚ) : Histogram :=
  vs.foldl observeLatency h

/-- The numbers reported by the `request_latency_seconds` section of
`Metrics.render_prometheus`: one `(upper bound, cumulative count)` line per
bucket, then the `+Inf` bucket line, the `_sum` line and the `_count` line. -/
structure HistogramRendering where
  bucketLines : List (ℚ × Nat)
  infLine : Nat
  sumLine : ℚ
  countLine : Nat
deriving DecidableEq

/-- The histogram part of `render_prometheus`.  The running `cum =
h.counts.get(ub, cum)` in the source always finds `ub` (the dict holds every
bucket), so each line shows the bucket's stored cumulative count. -/
def renderHistogram (h : Histogram) : HistogramRendering :=
  { bucketLines := h.buckets.zip h.counts
    infLine := h.count
    sumLine := h.sum
    countLine := h.count }

/-! ### Configuration (`config.py`) -/

/-- `get_settings`'s computation of `webhook_secret` from the raw
`WEBHOOK_SECRET` environment value: `_env` strips whitespace, and an empty
result is coerced to `None` ("treat empty secret as missing"). -/
def envSecret (raw : Option String) : Option String :=
  match raw with
  | none => none
  | some v =>
    let s := pyStrip v
    if s = "" then none else some s

/-! ### The webhook handler (`main.py`) -/

/-- The response bodies the `/webhook` route can produce:
`401 {"detail": "invalid signature"}`, a `422 {"detail": [...]}` validation
response, `200 {"status": "ok"}`, and the framework's 500 answer for the
unhandled `TypeError` escaping `hmac.compare_digest`. -/
inductive Resp where
  | invalidSignature
  | validationError
  | ok
  | serverError
deriving DecidableEq

/-- HTTP status code of each webhook response. -/
def Resp.status : Resp → Nat
  | .invalidSignature => 401
  | .validationError => 422
  | .ok => 200
  | .serverError => 500

/-- Python truthiness of the optional secret (`not settings.webhook_secret`
is true for both `None` and `""`). -/
def secretTruthy : Option String → Bool
  | none => false
  | some s => !(s == "")

/-- A payload that passed `WebhookMessageIn` validation. -/
structure Msg where
  message_id : String
  from_msisdn : String
  to_msisdn : String
  ts : String
  text : Option String
deriving DecidableEq

/-- `_signature_valid`: compares the digest (`hexdigest()` output, passed in
as `mac`) against `provided_hex.strip().lower()` using
`hmac.compare_digest`.  For `str` arguments `compare_digest` requires both
sides to be ASCII and raises `TypeError` otherwise — modelled as
`Except.error`; the handler does not catch it, so the framework answers
HTTP 500 on that path. -/
def signature_valid (mac provided : String) : Except Unit Bool :=
  if isAsciiStr mac && isAsciiStr (pyLowerStr (pyStrip provided)) then
    Except.ok (mac == pyLowerStr (pyStrip provided))
  else Except.error ()

/-- The `POST /webhook` handler.  Library primitives appear as arguments:
`hmacHex` is `hmac.new(secret, body, sha256).hexdigest()` (a lowercase hex
digest), `jsonParse` is `json.loads` (`none` = raised), `validate` is
`WebhookMessageIn.model_validate` (`none` = `ValidationError`), and
`created_at` is the `utc_now_iso()` clock reading.  The guard
`not sig or not settings.webhook_secret or not _signature_valid(...)`
short-circuits left to right: a missing or empty header and a falsy secret
answer 401 before `_signature_valid` runs; a digest mismatch answers 401; a
`TypeError` escaping `_signature_valid` becomes the framework's 500.  Past
the gate: JSON parse (422 on failure), schema validation (422 on failure),
then the idempotent insert, answering 200 for created and duplicate
alike. -/
def webhook {β π : Type} (secret : Option String) (hmacHex : String → β → String)
    (jsonParse : β → Option π) (validate : π → Option Msg)
    (st : Store) (created_at : String) (sigHeader : Option String) (body : β) :
    Store × Resp :=
  match sigHeader with
  | none => (st, Resp.invalidSignature)
  | some sig =>
    if sig = "" then (st, Resp.invalidSignature)
    else
      match secret with
      | none => (st, Resp.invalidSignature)
      | some sec =>
        if sec = "" then (st, Resp.invalidSignature)
        else
          match signature_valid (hmacHex sec body) sig with
          | Except.error _ => (st, Resp.serverError)
          | Except.ok false => (st, Resp.invalidSignature)
          | Except.ok true =>
            match jsonParse body with
            | none => (st, Resp.validationError)
            | some payload =>
              match validate payload with
              | none => (st, Resp.validationError)
              | some m =>
                ((insert_message_sync st m.message_id m.from_msisdn m.to_msisdn m.ts
                  m.text created_at).1, Resp.ok)

/-! ### Readiness (`main.py` / `storage.py`) -/

/-- The two bodies `/health/ready` can produce. -/
inductive ReadyBody where
  | ready
  | not_ready
deriving DecidableEq

/-- `Storage.schema_exists_sync`: queries `sqlite_master` for a table named
`messages`; absence is reported as `false`, not raised. -/
def schema_exists_sync (tables : List String) : Bool :=
  tables.contains "messages"

/-- The `GET /health/ready` handler: 503 when the secret is falsy; otherwise
consult the store (`schemaRes` is `Except.error` when `schema_exists` raised,
`Except.ok` with its boolean answer otherwise); 200 ready only on
`ok true`. -/
def health_ready (secret : Option String) (schemaRes : Except Unit Bool) :
    Nat × ReadyBody :=
  if secretTruthy secret then
    match schemaRes with
    | .error _ => (503, ReadyBody.not_ready)
    | .ok true => (200, ReadyBody.ready)
    | .ok false => (503, ReadyBody.not_ready)
  else (503, ReadyBody.not_ready)

/-! ### Spec-side filter definitions (for the refinement claim C3) -/

/-- Modelled from the spec: "case-insensitive substring match on `text`
(treating absent text as empty string)" — the `textContains` value taken
verbatim as a substring, not as a `LIKE` pattern. -/
def specTextContains (q : String) (text : Option String) : Bool :=
  containsSubBy charLikeEq q.toList ((text.getD "").toList)

/-- Modelled from the spec: "Filters combine with logical AND: exact match on
`from_msisdn` when `fromFilter` given; `ts >= sinceFilter` when given;
case-insensitive substring match on `text` ... when `textContains` given". -/
def specMatches (f s q : Option String) (r : Row) : Bool :=
  (match f with
   | none => true
   | some v => if v = "" then true else r.from_msisdn == v) &&
  ((match s with
   | none => true
   | some v => if v = "" then true else strLe v r.ts) &&
  (match q with
   | none => true
   | some v => specTextContains v r.text))

/-- The listing pipeline with the spec's substring filter in place of the
code's `LIKE` filter. -/
def specListPage (limit offset : Nat) (f s q : Option String) (st : Store) :
    MessagesPage :=
  { rows := ((sortRows (st.filter (specMatches f s q))).drop offset).take limit
    total := (st.filter (specMatches f s q)).length }

/-! ### Demo data used by witnesses -/

/-- A small concrete table (insertion order deliberately not the listing
order). -/
def demoStore : Store :=
  [⟨"m2", "+911", "+141", "2025-01-15T10:00:00Z", some "hello beta", "c"⟩,
   ⟨"m1", "+911", "+141", "2025-01-15T10:00:00Z", some "Hello Alpha", "c"⟩,
   ⟨"m3", "+141", "+911", "2025-01-15T11:00:00Z", some "Gamma", "c"⟩]

/-! ### C1: idempotent insert -/

/-- C1.  Idempotent insert: inserting a fresh `message_id` reports
created (`dup = false`) and appends exactly one row carrying the attempt's
field values; a second insert with the same `message_id` (any field values)
reports duplicate and leaves the table unchanged, so exactly one row with
that id — the first attempt's — persists; and whenever the webhook handler
reaches the insert (valid signature, parse and validation succeed) it
answers `200 {"status":"ok"}` no matter whether the insert was a create or a
duplicate. -/
theorem claim_idempotent_insert
    (st : Store) (id f1 t1 ts1 : String) (x1 : Option String) (ca1 : String)
    (f2 t2 ts2 : String) (x2 : Option String) (ca2 : String)
    (h : ∀ r ∈ st, r.message_id ≠ id) :
    insert_message_sync st id f1 t1 ts1 x1 ca1
      = (st ++ [⟨id, f1, t1, ts1, x1, ca1⟩], ⟨false⟩) ∧
    insert_message_sync (st ++ [⟨id, f1, t1, ts1, x1, ca1⟩]) id f2 t2 ts2 x2 ca2
      = (st ++ [⟨id, f1, t1, ts1, x1, ca1⟩], ⟨true⟩) ∧
    List.filter (fun r => r.message_id == id) (st ++ [⟨id, f1, t1, ts1, x1, ca1⟩])
      = [⟨id, f1, t1, ts1, x1, ca1⟩] ∧
    (∀ (β π : Type) (hm : String → β → String) (jp : β → Option π)
        (vld : π → Option Msg) (sec sg : String) (body : β) (p : π) (m : Msg)
        (st0 : Store) (ca : String),
        sec ≠ "" → sg ≠ "" → signature_valid (hm sec body) sg = Except.ok true →
        jp body = some p → vld p = some m →
        webhook (some sec) hm jp vld st0 ca (some sg) body
          = ((insert_message_sync st0 m.message_id m.from_msisdn m.to_msisdn
              m.ts m.text ca).1, Resp.ok)) := by
  have hany : st.any (fun r => r.message_id == id) = false := by
    rw [Bool.eq_false_iff]
    intro hc
    obtain ⟨r, hr, hbeq⟩ := List.any_eq_true.mp hc
    exact h r hr (by simpa using hbeq)
  refine ⟨?_, ?_, ?_, ?_⟩
  · simp [insert_message_sync, hany]
  · have hmem : (st ++ [(⟨id, f1, t1, ts1, x1, ca1⟩ : Row)]).any
        (fun r => r.message_id == id) = true :=
      List.any_eq_true.mpr ⟨⟨id, f1, t1, ts1, x1, ca1⟩, by simp, by simp⟩
    simp [insert_message_sync, hmem]
  · rw [List.filter_append]
    have h1 : st.filter (fun r => r.message_id == id) = [] := by
      rw [List.filter_eq_nil_iff]
      intro r hr
      simpa using h r hr
    rw [h1]
    simp
  · intro β π hm jp vld sec sg body p m st0 ca hsec hsg hsv hjp hvld
    simp [webhook, hsec, hsg, hsv, hjp, hvld]

/-- Witness for C1 at a concrete table and request. -/
theorem claim_idempotent_insert_witness :
    insert_message_sync [] "m1" "+911" "+141" "2025-01-15T10:00:00Z" (some "Hello") "c1"
      = ([⟨"m1", "+911", "+141", "2025-01-15T10:00:00Z", some "Hello", "c1"⟩], ⟨false⟩) ∧
    insert_message_sync [⟨"m1", "+911", "+141", "2025-01-15T10:00:00Z", some "Hello", "c1"⟩]
        "m1" "+7" "+8" "2026-01-01T00:00:00Z" none "c2"
      = ([⟨"m1", "+911", "+141", "2025-01-15T10:00:00Z", some "Hello", "c1"⟩], ⟨true⟩) ∧
    webhook (some "sec") (fun _ _ => "ab") (fun _ => some ())
        (fun _ => some ⟨"m1", "+911", "+141", "2025-01-15T10:00:00Z", some "Hello"⟩)
        [] "c1" (some "ab") ()
      = ((insert_message_sync [] "m1" "+911" "+141" "2025-01-15T10:00:00Z"
          (some "Hello") "c1").1, Resp.ok) := by
  have h := claim_idempotent_insert [] "m1" "+911" "+141" "2025-01-15T10:00:00Z"
    (some "Hello") "c1" "+7" "+8" "2026-01-01T00:00:00Z" none "c2"
    (by intro r hr; cases hr)
  exact ⟨by simpa using h.1, by simpa using h.2.1,
    h.2.2.2 Unit Unit (fun _ _ => "ab") (fun _ => some ())
      (fun _ => some ⟨"m1", "+911", "+141", "2025-01-15T10:00:00Z", some "Hello"⟩)
      "sec" "ab" () () ⟨"m1", "+911", "+141", "2025-01-15T10:00:00Z", some "Hello"⟩
      [] "c1" (by decide) (by decide) (by rfl) rfl rfl⟩

/-! ### C2: the signature gate precedes validation (corrected) -/

/-- C2 counterexample.  Two concrete requests refute the claim as stated.
(a) A mismatching header `É` (reachable: header bytes are decoded as
latin-1) survives stripping, lowercases to the non-ASCII `é`, and makes
`hmac.compare_digest` raise `TypeError`: the program answers the
framework's 500, not the claimed `401 {"detail":"invalid signature"}`.
(b) A header that is the digest followed by a no-break space differs from
the digest, yet `str.strip()` removes U+00A0, so the request is accepted:
200 with a row inserted, where the claim demands 401 and no insert. -/
theorem claim_signature_gate_cex :
    webhook (β := Unit) (π := Unit) (some "sec") (fun _ _ => "aa") (fun _ => some ())
        (fun _ => none) [] "c" (some "É") () = ([], Resp.serverError) ∧
    Resp.serverError.status = 500 ∧
    webhook (β := Unit) (π := Unit) (some "sec") (fun _ _ => "aa") (fun _ => some ())
        (fun _ => some ⟨"m1", "+911", "+141", "2025-01-15T10:00:00Z", none⟩)
        [] "c" (some "aa\u00A0") ()
      = ([⟨"m1", "+911", "+141", "2025-01-15T10:00:00Z", none, "c"⟩], Resp.ok) ∧
    ("aa\u00A0" : String) ≠ "aa" := by
  decide

/-- C2 (amended).  The signature gate still precedes validation: if the
secret is unconfigured (falsy), or the `X-Signature` header is absent or
empty, or the header after the code's normalisation (strip whitespace,
lowercase) is ASCII, the digest is ASCII, and the two differ, the handler
answers `401 {"detail":"invalid signature"}` with the store untouched — for
every `jsonParse`/`validate` oracle, in particular when the body is
malformed, so no 422 and no insert.  (A normalisation leaving non-ASCII
characters instead raises `TypeError`, answered 500 by the framework, and a
header equal to the digest after normalisation is accepted even though it
differs from the digest literally — see the counterexample.) -/
theorem claim_signature_gate {β π : Type} (secret : Option String)
    (hm : String → β → String) (jp : β → Option π) (vld : π → Option Msg)
    (st : Store) (ca : String) (sigHeader : Option String) (body : β)
    (h : secretTruthy secret = false ∨ sigHeader = none ∨
        (∀ sec sg, secret = some sec → sigHeader = some sg →
          sg = "" ∨ (isAsciiStr (hm sec body) = true ∧
            isAsciiStr (pyLowerStr (pyStrip sg)) = true ∧
            hm sec body ≠ pyLowerStr (pyStrip sg)))) :
    webhook secret hm jp vld st ca sigHeader body = (st, Resp.invalidSignature) ∧
    (webhook secret hm jp vld st ca sigHeader body).2.status = 401 := by
  have hw : webhook secret hm jp vld st ca sigHeader body = (st, Resp.invalidSignature) := by
    rcases sigHeader with _ | sg
    · rfl
    · by_cases hsg : sg = ""
      · simp [webhook, hsg]
      · rcases secret with _ | sec
        · simp [webhook, hsg]
        · by_cases hsec : sec = ""
          · simp [webhook, hsg, hsec]
          · rcases h with h | h | h
            · simp [secretTruthy, hsec] at h
            · exact absurd h (by simp)
            · rcases h sec sg rfl rfl with h | ⟨h1, h2, h3⟩
              · exact absurd h hsg
              · have hb : (hm sec body == pyLowerStr (pyStrip sg)) = false :=
                  beq_eq_false_iff_ne.mpr h3
                have hv : signature_valid (hm sec body) sg = Except.ok false := by
                  simp [signature_valid, h1, h2, hb]
                simp [webhook, hsg, hsec, hv]
  refine ⟨hw, ?_⟩
  rw [hw]
  rfl

/-- Witness for C2 (amended): an ASCII mismatching header with a malformed
(unparseable) body still gives 401 with the store unchanged. -/
theorem claim_signature_gate_witness :
    webhook (β := Unit) (π := Unit) (some "sec") (fun _ _ => "aa") (fun _ => none)
        (fun _ => none) demoStore "c" (some "ZZ") () = (demoStore, Resp.invalidSignature) :=
  (claim_signature_gate (some "sec") (fun _ _ => "aa") (fun _ => none) (fun _ => none)
    demoStore "c" (some "ZZ") ()
    (Or.inr (Or.inr (fun sec sg hsec hsg => by
      cases hsec; cases hsg
      exact Or.inr ⟨by decide, by decide, by decide⟩)))).1

/-! ### C3: filter semantics -/

theorem containsSubBy_nil_pat (eqc : Char → Char → Bool) (s : List Char) :
    containsSubBy eqc [] s = true := by
  cases s with
  | nil => rfl
  | cons c s2 => simp [containsSubBy, hasPrefixBy]

/-- For a `textContains` value free of `LIKE` wildcards and consisting of
ASCII characters — where Python's `str.lower` on the pattern side and the
ASCII-only SQL fold agree — the code's `LIKE` condition coincides with the
spec's case-insensitive substring test. -/
theorem codeTextMatches_eq_spec (q : String) (t : Option String)
    (hq : wildcardFree q.toList = true) (hqa : isAsciiStr q = true) :
    codeTextMatches q t = specTextContains q t := by
  have hmap : q.toList.map pyLowerChar = q.toList.map lowerc :=
    List.map_congr_left fun c hc =>
      pyLowerChar_ascii c (of_decide_eq_true (List.all_eq_true.mp hqa c hc))
  have hq2 : wildcardFree (q.toList.map lowerc) = true := by
    apply List.all_eq_true.mpr
    intro c hc
    obtain ⟨c0, hc0, rfl⟩ := List.mem_map.mp hc
    have hc1 := List.all_eq_true.mp hq c0 hc0
    simp only [Bool.and_eq_true, Bool.not_eq_true', beq_eq_false_iff_ne] at hc1 ⊢
    exact ⟨fun hcc => hc1.1 ((lowerc_pct c0).mp hcc),
      fun hcc => hc1.2 ((lowerc_underscore c0).mp hcc)⟩
  unfold codeTextMatches specTextContains
  rw [hmap, likeMatch_wrapped charLikeEq _ _ hq2, containsSubBy_map]
  have hfun : (fun a b => charLikeEq (lowerc a) (lowerc b)) = charLikeEq := by
    funext a b
    exact charLikeEq_lowerc a b
  rw [hfun]

theorem rowMatches_eq_spec (f s : Option String) (q : String) (r : Row)
    (hq : wildcardFree q.toList = true) (hqa : isAsciiStr q = true) :
    rowMatches f s (some q) r = specMatches f s (some q) r := by
  simp only [rowMatches, specMatches]
  rw [codeTextMatches_eq_spec q r.text hq hqa]

/-- C3 (amended).  The three filters AND together: exact `from_msisdn` match
(when truthy), `ts ≥ since` (when truthy), and the `textContains` condition —
which the code implements as the `LIKE` pattern `%q.lower()%` against the
ASCII-lowercased column.  Whenever `q` contains no `%`/`_` wildcard and is
ASCII (so Python's lowercasing and SQLite's ASCII-only folding agree), this
equals the spec's case-insensitive substring test, and under that proviso
the store query returns exactly the rows satisfying all provided
filters. -/
theorem claim_filter_semantics (st : Store) (f s : Option String) (q : String)
    (L o : Nat) (hq : wildcardFree q.toList = true) (hqa : isAsciiStr q = true) :
    (∀ r : Row, rowMatches f s (some q) r = specMatches f s (some q) r) ∧
    list_messages_sync L o f s (some q) st = specListPage L o f s (some q) st := by
  have hpt : ∀ r : Row, rowMatches f s (some q) r = specMatches f s (some q) r :=
    fun r => rowMatches_eq_spec f s q r hq hqa
  have hfil : filteredRows f s (some q) st = st.filter (specMatches f s (some q)) := by
    unfold filteredRows
    exact List.filter_congr (fun r _ => hpt r)
  refine ⟨hpt, ?_⟩
  unfold list_messages_sync specListPage
  rw [hfil]

/-- C3 counterexample: with `textContains = "%"` the query returns a row
whose text does not contain `%` at all — the code treats the value as a
`LIKE` pattern, not as a literal substring as the claim states.  And with
the wildcard-free `textContains = "É"` the code's pattern `%é%` (Python
lowercasing) fails against the column value `É` (SQL `LOWER` and `LIKE`
fold only ASCII), although `É` plainly occurs case-insensitively in the
text — a second divergence from the claimed substring semantics. -/
theorem claim_filter_semantics_cex :
    (list_messages_sync 50 0 none none (some "%")
        [⟨"m1", "+911", "+141", "2025-01-15T10:00:00Z", some "abc", "c"⟩]).rows
      = [⟨"m1", "+911", "+141", "2025-01-15T10:00:00Z", some "abc", "c"⟩] ∧
    specTextContains "%" (some "abc") = false ∧
    rowMatches none none (some "É") ⟨"m2", "+911", "+141", "2025-01-15T10:00:00Z", some "É", "c"⟩ = false ∧
    specMatches none none (some "É") ⟨"m2", "+911", "+141", "2025-01-15T10:00:00Z", some "É", "c"⟩ = true := by
  decide

/-- Witness for C3 (amended) at a wildcard-free query string. -/
theorem claim_filter_semantics_witness :
    list_messages_sync 50 0 none none (some "ALPHA") demoStore
      = specListPage 50 0 none none (some "ALPHA") demoStore :=
  (claim_filter_semantics demoStore none none "ALPHA" 50 0 (by decide) (by decide)).2

/-! ### C9: empty-string filter boundary -/

/-- C9.  An empty `from` filter value is Python-falsy, so no sender condition
is added and the query behaves exactly as with the parameter omitted; an
empty `textContains` is applied (`q is not None`) but its `LIKE` pattern
`%%` accepts every row, so the result also equals the unfiltered one. -/
theorem claim_empty_from_filter (st : Store) (L o : Nat) (s q : Option String) :
    list_messages_sync L o (some "") s q st = list_messages_sync L o none s q st ∧
    (∀ r : Row, codeTextMatches "" r.text = true) ∧
    list_messages_sync L o none s (some "") st = list_messages_sync L o none s none st := by
  have hq : ∀ t : Option String, codeTextMatches "" t = true := by
    intro t
    unfold codeTextMatches
    rw [show ("".toList.map pyLowerChar) = [] from rfl,
      likeMatch_wrapped charLikeEq [] _ rfl]
    exact containsSubBy_nil_pat _ _
  have h1 : ∀ r : Row, rowMatches (some "") s q r = rowMatches none s q r := by
    intro r; simp [rowMatches]
  have h2 : ∀ r : Row, rowMatches none s (some "") r = rowMatches none s none r := by
    intro r; simp [rowMatches, hq r.text]
  refine ⟨?_, fun r => hq r.text, ?_⟩
  · unfold list_messages_sync filteredRows
    rw [List.filter_congr (fun r _ => h1 r)]
  · unfold list_messages_sync filteredRows
    rw [List.filter_congr (fun r _ => h2 r)]

/-! ### C5: pagination total -/

/-- C5.  The `total` field comes from a separate `COUNT(*)` with the same
`WHERE` clause and no `LIMIT`/`OFFSET`, so it equals the size of the full
filtered set and is identical across pages; `GET /messages` surfaces it
unchanged. -/
theorem claim_pagination_total (st : Store) (f s q : Option String)
    (L1 o1 L2 o2 : Nat) :
    (list_messages_sync L1 o1 f s q st).total = (filteredRows f s q st).length ∧
    (list_messages_sync L1 o1 f s q st).total = (list_messages_sync L2 o2 f s q st).total ∧
    (get_messages L1 o1 f s q st).total = (filteredRows f s q st).length :=
  ⟨rfl, rfl, rfl⟩

/-! ### C4: listing order and pagination stability -/

theorem range_flatMap_take_drop {α : Type} (L : Nat) (m : List α) (n : Nat) :
    (List.range n).flatMap (fun k => (m.drop (k*L)).take L) = m.take (n*L) := by
  induction n with
  | zero => simp
  | succ n ih =>
    rw [List.range_succ, List.flatMap_append, ih]
    simp only [List.flatMap_cons, List.flatMap_nil, List.append_nil]
    rw [show (n+1)*L = n*L + L by ring, List.take_add]

theorem sortRows_perm (l : List Row) : (sortRows l).Perm l :=
  sortLe_perm _ _

theorem sortRows_length (l : List Row) : (sortRows l).length = l.length :=
  (sortRows_perm l).length_eq

/-- C4.  Every page is sorted by `(ts, message_id)` ascending; the sorted
filtered list is a permutation of the filtered set (each matching row occurs
exactly once in it); and since the order is a fixed total order, paging with
a fixed limit `L` through offsets `0, L, 2L, …` concatenates back to exactly
that sorted list — no row is duplicated or skipped. -/
theorem claim_listing_order (st : Store) (f s q : Option String) (L o : Nat) :
    (list_messages_sync L o f s q st).rows.Pairwise (fun a b => rowLe a b = true) ∧
    (sortRows (filteredRows f s q st)).Perm (filteredRows f s q st) ∧
    (∀ n, (filteredRows f s q st).length ≤ n * L →
      (List.range n).flatMap (fun k => (list_messages_sync L (k*L) f s q st).rows)
        = sortRows (filteredRows f s q st)) := by
  refine ⟨?_, sortRows_perm _, ?_⟩
  · have hs : (sortRows (filteredRows f s q st)).Pairwise (fun a b => rowLe a b = true) :=
      sortLe_pairwise rowLe rowLe_total rowLe_trans _
    have hsub : (((sortRows (filteredRows f s q st)).drop o).take L).Sublist
        (sortRows (filteredRows f s q st)) :=
      (List.take_sublist _ _).trans (List.drop_sublist _ _)
    exact List.Pairwise.sublist hsub hs
  · intro n hn
    have hrows : (fun k => (list_messages_sync L (k*L) f s q st).rows)
        = fun k => ((sortRows (filteredRows f s q st)).drop (k*L)).take L := rfl
    rw [hrows, range_flatMap_take_drop]
    apply List.take_of_length_le
    rw [sortRows_length]
    exact hn

/-- Witness for C4: paging through the demo table in pages of two
reassembles the full sorted listing. -/
theorem claim_listing_order_witness :
    (List.range 2).flatMap (fun k => (list_messages_sync 2 (k*2) none none none demoStore).rows)
      = sortRows (filteredRows none none none demoStore) :=
  (claim_listing_order demoStore none none none 2 0).2.2 2 (by decide)

/-! ### C6: the latency histogram -/

theorem zipWith_zipWith {α β : Type} (f g : α → β → β) (bs : List α) (cs : List β) :
    List.zipWith f bs (List.zipWith g bs cs) = List.zipWith (fun b c => f b (g b c)) bs cs := by
  induction bs generalizing cs with
  | nil => simp
  | cons b bs ih =>
    cases cs with
    | nil => simp
    | cons c cs => simp [ih]

theorem zipWith_snd_of_length {α β : Type} (bs : List α) (cs : List β)
    (h : cs.length = bs.length) : List.zipWith (fun _ c => c) bs cs = cs := by
  induction bs generalizing cs with
  | nil => cases cs with
    | nil => rfl
    | cons c cs => simp at h
  | cons b bs ih =>
    cases cs with
    | nil => simp at h
    | cons c cs =>
      simp only [List.zipWith_cons_cons, List.cons.injEq, true_and]
      exact ih cs (by simpa using h)

theorem observeAll_buckets (h : Histogram) (vs : List ℚ) :
    (observeAll h vs).buckets = h.buckets := by
  induction vs generalizing h with
  | nil => rfl
  | cons v vs ih => exact ih (observeLatency h v)

theorem observeAll_count (h : Histogram) (vs : List ℚ) :
    (observeAll h vs).count = h.count + vs.length := by
  induction vs generalizing h with
  | nil => rfl
  | cons v vs ih =>
    show (observeAll (observeLatency h v) vs).count = h.count + (v :: vs).length
    rw [ih]
    show h.count + 1 + vs.length = h.count + (vs.length + 1)
    omega

theorem observeAll_sum (h : Histogram) (vs : List ℚ) :
    (observeAll h vs).sum = h.sum + (vs.map (fun v => max 0 v)).sum := by
  induction vs generalizing h with
  | nil => simp [observeAll]
  | cons v vs ih =>
    show (observeAll (observeLatency h v) vs).sum = _
    rw [ih]
    show h.sum + max 0 v + (vs.map (fun v => max 0 v)).sum = _
    rw [List.map_cons, List.sum_cons]
    ring

theorem observeAll_counts (h : Histogram) (vs : List ℚ)
    (hlen : h.counts.length = h.buckets.length) :
    (observeAll h vs).counts = List.zipWith
      (fun ub c => c + (vs.map (fun v => max 0 v)).countP (fun w => decide (w ≤ ub)))
      h.buckets h.counts := by
  induction vs generalizing h with
  | nil =>
    show h.counts = _
    simp only [List.map_nil, List.countP_nil, Nat.add_zero]
    exact (zipWith_snd_of_length h.buckets h.counts hlen).symm
  | cons v vs ih =>
    have hlen2 : (observeLatency h v).counts.length = (observeLatency h v).buckets.length := by
      show (List.zipWith _ h.buckets h.counts).length = h.buckets.length
      rw [List.length_zipWith, hlen, Nat.min_self]
    show (observeAll (observeLatency h v) vs).counts = _
    rw [ih (observeLatency h v) hlen2]
    show List.zipWith _ h.buckets (List.zipWith _ h.buckets h.counts) = _
    rw [zipWith_zipWith]
    have hfun : (fun (ub : ℚ) (c : Nat) =>
        (if max 0 v ≤ ub then c + 1 else c)
          + (vs.map (fun v => max 0 v)).countP (fun w => decide (w ≤ ub)))
        = fun ub c => c + ((v :: vs).map (fun v => max 0 v)).countP (fun w => decide (w ≤ ub)) := by
      funext ub c
      rw [List.map_cons, List.countP_cons]
      by_cases hc : max 0 v ≤ ub
      · rw [if_pos hc, if_pos (decide_eq_true hc)]
        omega
      · rw [if_neg hc, if_neg (by simpa using hc)]
        omega
    rw [hfun]

theorem zip_zipWith_replicate (g : ℚ → Nat) (bs : List ℚ) :
    bs.zip (List.zipWith (fun ub c => c + g ub) bs (List.replicate bs.length 0))
      = bs.map (fun b => (b, g b)) := by
  induction bs with
  | nil => rfl
  | cons b bs ih =>
    simp only [List.length_cons, List.replicate_succ, List.zipWith_cons_cons,
      List.zip_cons_cons, List.map_cons, ih, Nat.zero_add]

/-- C6.  After any finite sequence of `observe_latency` calls: every negative
value is clamped to zero before being recorded; each rendered bucket line
`(ub, n)` reports as `n` the number of clamped observations `≤ ub`
(cumulative semantics); the `+Inf` bucket line and the `_count` line both
report the total number of observations; and the `_sum` line reports the sum
of the clamped values. -/
theorem claim_latency_histogram (vs : List ℚ) :
    (renderHistogram (observeAll requestLatencyInit vs)).bucketLines
      = requestLatencyInit.buckets.map
          (fun ub => (ub, (vs.map (fun v => max 0 v)).countP (fun w => decide (w ≤ ub)))) ∧
    (renderHistogram (observeAll requestLatencyInit vs)).infLine = vs.length ∧
    (renderHistogram (observeAll requestLatencyInit vs)).countLine = vs.length ∧
    (renderHistogram (observeAll requestLatencyInit vs)).sumLine
      = (vs.map (fun v => max 0 v)).sum := by
  have hlen : requestLatencyInit.counts.length = requestLatencyInit.buckets.length := by
    show (List.replicate requestLatencyInit.buckets.length 0).length = _
    rw [List.length_replicate]
  refine ⟨?_, ?_, ?_, ?_⟩
  · show (observeAll requestLatencyInit vs).buckets.zip
        (observeAll requestLatencyInit vs).counts = _
    rw [observeAll_buckets, observeAll_counts requestLatencyInit vs hlen]
    have hcounts : requestLatencyInit.counts
        = List.replicate requestLatencyInit.buckets.length 0 := rfl
    rw [hcounts]
    exact zip_zipWith_replicate _ _
  · show (observeAll requestLatencyInit vs).count = vs.length
    rw [observeAll_count, show requestLatencyInit.count = 0 from rfl, Nat.zero_add]
  · show (observeAll requestLatencyInit vs).count = vs.length
    rw [observeAll_count, show requestLatencyInit.count = 0 from rfl, Nat.zero_add]
  · show (observeAll requestLatencyInit vs).sum = _
    rw [observeAll_sum]
    show (0 : ℚ) + _ = _
    ring

/-! ### C7: the stats contract -/

theorem foldlMin_spec (ts : List String) (t : String) :
    (ts.foldl (fun m u => if strLe m u then m else u) t) ∈ t :: ts ∧
    ∀ u ∈ t :: ts, strLe (ts.foldl (fun m u => if strLe m u then m else u) t) u = true := by
  induction ts generalizing t with
  | nil =>
    refine ⟨by simp, ?_⟩
    intro u hu
    rw [List.mem_singleton] at hu
    rw [hu]
    exact strLe_refl t
  | cons v ts ih =>
    simp only [List.foldl_cons]
    by_cases hc : strLe t v = true
    · rw [if_pos hc]
      obtain ⟨hmem, hbd⟩ := ih t
      refine ⟨?_, ?_⟩
      · rcases List.mem_cons.mp hmem with h | h
        · exact List.mem_cons.mpr (Or.inl h)
        · exact List.mem_cons.mpr (Or.inr (List.mem_cons.mpr (Or.inr h)))
      · intro u hu
        rcases List.mem_cons.mp hu with h | h
        · subst h
          exact hbd u (List.mem_cons.mpr (Or.inl rfl))
        · rcases List.mem_cons.mp h with h2 | h2
          · subst h2
            exact strLe_trans _ t u (hbd t (List.mem_cons.mpr (Or.inl rfl))) hc
          · exact hbd u (List.mem_cons.mpr (Or.inr h2))
    · have hvt : strLe v t = true := by
        rcases strLe_total t v with h | h
        · exact absurd h hc
        · exact h
      rw [if_neg hc]
      obtain ⟨hmem, hbd⟩ := ih v
      refine ⟨?_, ?_⟩
      · rcases List.mem_cons.mp hmem with h | h
        · exact List.mem_cons.mpr (Or.inr (List.mem_cons.mpr (Or.inl h)))
        · exact List.mem_cons.mpr (Or.inr (List.mem_cons.mpr (Or.inr h)))
      · intro u hu
        rcases List.mem_cons.mp hu with h | h
        · subst h
          exact strLe_trans _ v u (hbd v (List.mem_cons.mpr (Or.inl rfl))) hvt
        · exact hbd u h

theorem foldlMax_spec (ts : List String) (t : String) :
    (ts.foldl (fun m u => if strLe m u then u else m) t) ∈ t :: ts ∧
    ∀ u ∈ t :: ts, strLe u (ts.foldl (fun m u => if strLe m u then u else m) t) = true := by
  induction ts generalizing t with
  | nil =>
    refine ⟨by simp, ?_⟩
    intro u hu
    rw [List.mem_singleton] at hu
    rw [hu]
    exact strLe_refl t
  | cons v ts ih =>
    simp only [List.foldl_cons]
    by_cases hc : strLe t v = true
    · rw [if_pos hc]
      obtain ⟨hmem, hbd⟩ := ih v
      refine ⟨?_, ?_⟩
      · rcases List.mem_cons.mp hmem with h | h
        · exact List.mem_cons.mpr (Or.inr (List.mem_cons.mpr (Or.inl h)))
        · exact List.mem_cons.mpr (Or.inr (List.mem_cons.mpr (Or.inr h)))
      · intro u hu
        rcases List.mem_cons.mp hu with h | h
        · subst h
          exact strLe_trans u v _ hc (hbd v (List.mem_cons.mpr (Or.inl rfl)))
        · exact hbd u h
    · have hvt : strLe v t = true := by
        rcases strLe_total t v with h | h
        · exact absurd h hc
        · exact h
      rw [if_neg hc]
      obtain ⟨hmem, hbd⟩ := ih t
      refine ⟨?_, ?_⟩
      · rcases List.mem_cons.mp hmem with h | h
        · exact List.mem_cons.mpr (Or.inl h)
        · exact List.mem_cons.mpr (Or.inr (List.mem_cons.mpr (Or.inr h)))
      · intro u hu
        rcases List.mem_cons.mp hu with h | h
        · subst h
          exact hbd u (List.mem_cons.mpr (Or.inl rfl))
        · rcases List.mem_cons.mp h with h2 | h2
          · subst h2
            exact strLe_trans u t _ hvt (hbd t (List.mem_cons.mpr (Or.inl rfl)))
          · exact hbd u (List.mem_cons.mpr (Or.inr h2))

theorem countGe_total (a b : String × Nat) : countGe a b = true ∨ countGe b a = true := by
  unfold countGe
  rcases Nat.le_total b.2 a.2 with h | h
  · left; exact decide_eq_true h
  · right; exact decide_eq_true h

theorem countGe_trans (a b c : String × Nat) (hab : countGe a b = true)
    (hbc : countGe b c = true) : countGe a c = true := by
  unfold countGe at hab hbc ⊢
  exact decide_eq_true (Nat.le_trans (of_decide_eq_true hbc) (of_decide_eq_true hab))

/-- C7.  `stats()` returns the table's row count; the number of distinct
senders; at most ten `(sender, count)` entries sorted descending by count,
each carrying a real sender together with its exact row count; and the
minimum and maximum `ts` over all rows, both `NULL` exactly when the table
is empty. -/
theorem claim_stats_contract (st : Store) :
    (stats_sync st).total_messages = st.length ∧
    (stats_sync st).senders_count = (sendersOf st).toFinset.card ∧
    (stats_sync st).messages_per_sender.length ≤ 10 ∧
    (stats_sync st).messages_per_sender.Pairwise (fun a b => b.2 ≤ a.2) ∧
    (∀ p ∈ (stats_sync st).messages_per_sender,
        p.1 ∈ sendersOf st ∧ p.2 = (sendersOf st).count p.1) ∧
    ((stats_sync st).first_message_ts = none ↔ st = []) ∧
    ((stats_sync st).last_message_ts = none ↔ st = []) ∧
    (∀ m, (stats_sync st).first_message_ts = some m →
        m ∈ st.map (fun r => r.ts) ∧ ∀ u ∈ st.map (fun r => r.ts), strLe m u = true) ∧
    (∀ m, (stats_sync st).last_message_ts = some m →
        m ∈ st.map (fun r => r.ts) ∧ ∀ u ∈ st.map (fun r => r.ts), strLe u m = true) := by
  refine ⟨rfl, (List.card_toFinset _).symm, List.length_take_le _ _, ?_, ?_, ?_, ?_, ?_, ?_⟩
  · have hs : (sortLe countGe ((sendersOf st).dedup.map
        (fun s => (s, (sendersOf st).count s)))).Pairwise (fun a b => countGe a b = true) :=
      sortLe_pairwise countGe countGe_total countGe_trans _
    have ht := List.Pairwise.sublist (List.take_sublist 10 _) hs
    exact ht.imp (fun hab => of_decide_eq_true hab)
  · intro p hp
    have hp2 : p ∈ sortLe countGe ((sendersOf st).dedup.map
        (fun s => (s, (sendersOf st).count s))) :=
      List.mem_of_mem_take hp
    have hp3 : p ∈ (sendersOf st).dedup.map (fun s => (s, (sendersOf st).count s)) :=
      (sortLe_perm countGe _).mem_iff.mp hp2
    obtain ⟨sdr, hsdr, rfl⟩ := List.mem_map.mp hp3
    exact ⟨List.mem_dedup.mp hsdr, rfl⟩
  · cases st with
    | nil => simp [stats_sync, minTs]
    | cons r rs => simp [stats_sync, minTs]
  · cases st with
    | nil => simp [stats_sync, maxTs]
    | cons r rs => simp [stats_sync, maxTs]
  · intro m hm
    cases st with
    | nil => simp [stats_sync, minTs] at hm
    | cons r rs =>
      simp only [stats_sync, minTs, List.map_cons] at hm
      have hm2 := Option.some.inj hm
      obtain ⟨h1, h2⟩ := foldlMin_spec (rs.map (fun r => r.ts)) r.ts
      subst hm2
      exact ⟨by simpa using h1, by intro u hu; exact h2 u (by simpa using hu)⟩
  · intro m hm
    cases st with
    | nil => simp [stats_sync, maxTs] at hm
    | cons r rs =>
      simp only [stats_sync, maxTs, List.map_cons] at hm
      have hm2 := Option.some.inj hm
      obtain ⟨h1, h2⟩ := foldlMax_spec (rs.map (fun r => r.ts)) r.ts
      subst hm2
      exact ⟨by simpa using h1, by intro u hu; exact h2 u (by simpa using hu)⟩

/-- Witness for C7 on the demo table: a concrete top-sender entry carries its
exact count, and the reported minimum timestamp is the least one. -/
theorem claim_stats_contract_witness :
    (("+911", 2) : String × Nat).1 ∈ sendersOf demoStore ∧
    (("+911", 2) : String × Nat).2 = (sendersOf demoStore).count "+911" ∧
    "2025-01-15T10:00:00Z" ∈ demoStore.map (fun r => r.ts) := by
  have h := claim_stats_contract demoStore
  have hmem := h.2.2.2.2.1 ("+911", 2) (by decide)
  have hmin := h.2.2.2.2.2.2.2.1 "2025-01-15T10:00:00Z" (by decide)
  exact ⟨hmem.1, hmem.2, hmin.1⟩

/-! ### C8: readiness -/

/-- C8.  `/health/ready` answers `200 {"status":"ready"}` exactly when the
secret is configured (truthy) and the store reachably reports that the
`messages` table exists; a falsy secret, a raised storage error, or a
missing schema all give `503 {"status":"not_ready"}` — and
`schema_exists_sync` reports absence as `false` by construction (it is a
total boolean query of the table list), so absence flows into the 503
branch rather than an exception. -/
theorem claim_readiness (secret : Option String) (res : Except Unit Bool)
    (tables : List String) :
    (health_ready secret res = (200, ReadyBody.ready) ↔
      (secretTruthy secret = true ∧ res = Except.ok true)) ∧
    (health_ready secret res = (200, ReadyBody.ready) ∨
      health_ready secret res = (503, ReadyBody.not_ready)) ∧
    (health_ready secret (Except.ok (schema_exists_sync tables)) = (200, ReadyBody.ready) ↔
      (secretTruthy secret = true ∧ "messages" ∈ tables)) := by
  have hiff : ∀ r : Except Unit Bool,
      health_ready secret r = (200, ReadyBody.ready) ↔
        (secretTruthy secret = true ∧ r = Except.ok true) := by
    intro r
    unfold health_ready
    by_cases hs : secretTruthy secret = true
    · rw [if_pos hs]
      cases r with
      | error e => simp [hs]
      | ok b => cases b <;> simp [hs]
    · rw [if_neg hs]
      simp [hs]
  refine ⟨hiff res, ?_, ?_⟩
  · unfold health_ready
    by_cases hs : secretTruthy secret = true
    · rw [if_pos hs]
      cases res with
      | error e => right; rfl
      | ok b => cases b
                · right; rfl
                · left; rfl
    · rw [if_neg hs]
      right; rfl
  · rw [hiff (Except.ok (schema_exists_sync tables))]
    unfold schema_exists_sync
    constructor
    · rintro ⟨h1, h2⟩
      refine ⟨h1, ?_⟩
      have := Except.ok.inj h2
      simpa [List.elem_iff] using this
    · rintro ⟨h1, h2⟩
      refine ⟨h1, ?_⟩
      congr 1
      simpa [List.elem_iff] using h2

/-- Witness for C8: a configured secret and a present table give 200 ready. -/
theorem claim_readiness_witness :
    health_ready (some "sec") (Except.ok (schema_exists_sync ["messages"]))
      = (200, ReadyBody.ready) :=
  ((claim_readiness (some "sec") (Except.ok true) ["messages"]).2.2).mpr
    ⟨by decide, by simp⟩

/-! ### C10: an empty or whitespace secret is treated as absent -/

theorem stripList_all_space (l : List Char) (h : l.all pyIsSpace = true) :
    stripList l = [] := by
  have h1 : l.dropWhile pyIsSpace = [] := by
    induction l with
    | nil => rfl
    | cons c cs ih =>
      have hc := List.all_eq_true.mp h c (by simp)
      rw [List.dropWhile_cons, if_pos hc]
      exact ih (List.all_eq_true.mpr fun x hx => List.all_eq_true.mp h x (by simp [hx]))
  simp [stripList, h1]

/-- C10.  When `WEBHOOK_SECRET` is unset, empty, or whitespace-only, the
settings carry `webhook_secret = None`; consequently every `POST /webhook`
request is rejected 401 regardless of header and body, and `/health/ready`
answers 503 whatever the store reports. -/
theorem claim_empty_secret (raw : Option String)
    (h : raw = none ∨ ∃ v, raw = some v ∧ v.toList.all pyIsSpace = true) :
    envSecret raw = none ∧
    (∀ (β π : Type) (hm : String → β → String) (jp : β → Option π)
        (vld : π → Option Msg) (st : Store) (ca : String) (sig : Option String)
        (body : β),
        webhook (envSecret raw) hm jp vld st ca sig body = (st, Resp.invalidSignature)) ∧
    (∀ res : Except Unit Bool,
        health_ready (envSecret raw) res = (503, ReadyBody.not_ready)) := by
  have hnone : envSecret raw = none := by
    rcases h with rfl | ⟨v, rfl, hv⟩
    · rfl
    · unfold envSecret
      have hstrip : pyStrip v = "" := by
        unfold pyStrip
        rw [stripList_all_space v.toList hv]
      simp [hstrip]
  refine ⟨hnone, ?_, ?_⟩
  · intro β π hm jp vld st ca sig body
    rw [hnone]
    rcases sig with _ | sg
    · rfl
    · by_cases hs : sg = ""
      · simp [webhook, hs]
      · simp [webhook, hs]
  · intro res
    rw [hnone]
    rfl

/-- Witness for C10 at a whitespace-only secret value. -/
theorem claim_empty_secret_witness :
    envSecret (some "  ") = none ∧
    webhook (β := Unit) (π := Unit) (envSecret (some "  ")) (fun _ _ => "aa")
        (fun _ => some ()) (fun _ => none) [] "c" (some "aa") ()
      = ([], Resp.invalidSignature) ∧
    health_ready (envSecret (some "  ")) (Except.ok true) = (503, ReadyBody.not_ready) := by
  have h := claim_empty_secret (some "  ") (Or.inr ⟨"  ", rfl, by decide⟩)
  exact ⟨h.1, h.2.1 Unit Unit (fun _ _ => "aa") (fun _ => some ()) (fun _ => none)
    [] "c" (some "aa") (), h.2.2 (Except.ok true)⟩
